import Mathlib

/-!
Verification of the resumable scrape-and-aggregate core of the
order-history exporter browser extension.

The embedding below translates the pure computational core of
`src/content/content.ts` (and the shared date utilities) into Lean:

* JavaScript numbers holding monetary amounts are modelled as rationals
  (`ℚ`); `Math.round(x * 100) / 100` becomes `round2`.
* DOM access is factored out: each embedded function takes the data the
  original reads from the document (already-matched text fragments,
  parsed order records per page, and so on) as explicit arguments,
  mirroring the repository's own design note that extraction logic
  should be testable against fixture inputs.
* Strings are handled as `List Char` where the original applies
  regular expressions; the three concrete date regexes are embedded as
  executable backtracking matchers with JavaScript leftmost-match
  semantics.
-/

namespace AmazonExporter

/-- `Math.round(q * 100) / 100`: rounding to two decimals, half up,
as used throughout `parsePromotionsFromDetails`. -/
def round2 (q : ℚ) : ℚ := (⌊q * 100 + 1/2⌋ : ℚ) / 100

/-- A rational that is a whole number of cents. -/
def IsCents (q : ℚ) : Prop := ∃ n : ℤ, q = n / 100

/-- `OrderItem` from `src/types/index.ts`. -/
structure OrderItem where
  title : String
  asin : String
  quantity : ℚ
  price : ℚ
  discount : ℚ
  itemUrl : String
  deriving Repr, DecidableEq

/-- `Promotion` from `src/types/index.ts`. -/
structure Promotion where
  description : String
  amount : ℚ
  deriving Repr, DecidableEq

/-- `Order` from `src/types/index.ts`. -/
structure Order where
  orderId : String
  orderDate : String
  totalAmount : ℚ
  currency : String
  items : List OrderItem
  orderStatus : String
  detailsUrl : String
  promotions : List Promotion
  totalSavings : ℚ
  deriving Repr, DecidableEq

/-- `order.items.reduce((sum, item) => sum + item.price * item.quantity, 0)`
(content.ts line 945). -/
def itemsTotal (o : Order) : ℚ :=
  o.items.foldl (fun sum item => sum + item.price * item.quantity) 0

/-- The running `totalSavings` accumulator of `parsePromotionsFromDetails`:
each promotion pushed onto the list also adds its amount to the
accumulator, so its value when reconciliation starts is the sum of the
amounts of the found promotions. -/
def promoSum (ps : List Promotion) : ℚ :=
  ps.foldl (fun s p => s + p.amount) 0

/-- The `getMessage('additionalDiscount')` description; `browser.i18n`
is an external collaborator whose lookup falls back to the key itself
(`browser.i18n.getMessage(key) || key`), so the key stands for the
message. -/
def additionalDiscountMsg : String := "additionalDiscount"

/-- The residual-reconciliation tail of `parsePromotionsFromDetails`
(content.ts lines 944-962), applied to an order and the list of
promotions found by the selector scans earlier in the same function
(whose amount sum is the function's `totalSavings` accumulator). -/
def reconcilePromotions (o : Order) (found : List Promotion) : Order :=
  let totalSavings := promoSum found
  let itTotal := itemsTotal o
  if itTotal > o.totalAmount ∧ o.totalAmount > 0 then
    let unexplained := round2 (itTotal - o.totalAmount)
    if unexplained > totalSavings + 1/100 then
      let additional := round2 (unexplained - totalSavings)
      if additional > 1/100 then
        { o with promotions := found ++ [⟨additionalDiscountMsg, additional⟩],
                 totalSavings := round2 unexplained }
      else
        { o with promotions := found, totalSavings := round2 totalSavings }
    else
      { o with promotions := found, totalSavings := round2 totalSavings }
  else
    { o with promotions := found, totalSavings := round2 totalSavings }

/-- An order as scraped before enrichment whose listing total could not
be parsed (`totalAmount` remains its initial 0) but whose single item
obtained a detail-page price of 10. -/
def orderZeroTotal : Order :=
  ⟨"111-0000000-0000001", "2024-01-01", 0, "EUR",
    [⟨"item A", "B000000001", 1, 10, 0, "https://www.amazon.de/dp/B000000001"⟩],
    "", "", [], 0⟩

/-- The order of the spec's end-to-end scenario: two items priced 10.00
and 8.00 (quantity 1 each), `totalAmount` 16.00. -/
def orderSixteen : Order :=
  ⟨"111-0000000-0000002", "2024-01-02", 16, "EUR",
    [⟨"item A", "B000000001", 1, 10, 0, "https://www.amazon.de/dp/B000000001"⟩,
     ⟨"item B", "B000000002", 1, 8, 0, "https://www.amazon.de/dp/B000000002"⟩],
    "", "", [], 0⟩

/-- An order whose items exactly add up to its total. -/
def orderTen : Order :=
  ⟨"111-0000000-0000003", "2024-01-03", 10, "EUR",
    [⟨"item C", "B000000003", 1, 10, 0, "https://www.amazon.de/dp/B000000003"⟩],
    "", "", [], 0⟩

/-- `format: 'json' | 'csv'` from `src/types/index.ts`. -/
inductive ExportFormat where
  | json
  | csv
  deriving Repr, DecidableEq

/-- `ExportState` from `src/types/index.ts`, the continuation record.
`currentStartIndex` is a JavaScript number only ever set to 0 or
incremented by 10, modelled as `ℤ` so that non-negativity is a proved
invariant rather than a typing assumption. -/
structure ExportState where
  inProgress : Bool
  format : ExportFormat
  startDate : Option String
  endDate : Option String
  exportAll : Bool
  yearsToProcess : List String
  currentYearIndex : Nat
  currentStartIndex : ℤ
  collectedOrders : List Order
  seenOrderIds : List String
  baseUrl : String
  deriving Repr, DecidableEq

/-- Lexicographic comparison of character lists by code unit, the
order JavaScript uses on strings. -/
def charListLt : List Char → List Char → Bool
  | [], [] => false
  | [], _ :: _ => true
  | _ :: _, [] => false
  | a :: as, b :: bs =>
      if a.toNat < b.toNat then true
      else if b.toNat < a.toNat then false
      else charListLt as bs

/-- `new Date(a) < new Date(b)` for the canonical ISO `YYYY-MM-DD`
strings the scraper produces, for which JavaScript date order coincides
with lexicographic string order. -/
def jsDateLt (a b : String) : Bool := charListLt a.data b.data

/-- The per-order acceptance test of `scrapeVisibleOrders` (content.ts
lines 444-469): an order is kept when it parsed with a non-empty
`orderId` (the `order && order.orderId` truthiness test), is not in the
already-seen set, and survives the optional date-range filter (active
only when not exporting all, both bounds are set and the order has a
parsed date). -/
def keepOrder (startDate endDate : Option String) (exportAll : Bool)
    (seenOrderIds : List String) (o : Order) : Bool :=
  o.orderId ≠ "" && !(seenOrderIds.contains o.orderId) &&
    (match exportAll, startDate, endDate with
     | false, some s, some e =>
         if o.orderDate ≠ "" then
           !(jsDateLt o.orderDate s || jsDateLt e o.orderDate)
         else true
     | _, _, _ => true)

/-- `scrapeVisibleOrders` (content.ts lines 386-472) with the DOM
factored out: `parsed` is the list of order records that
`parseOrderElement` produced for the page's containers (ad blocks and
parse failures already dropped, since those yield `null`). -/
def scrapeVisibleOrders (startDate endDate : Option String)
    (exportAll : Bool) (seenOrderIds : List String)
    (parsed : List Order) : List Order :=
  parsed.filter (keepOrder startDate endDate exportAll seenOrderIds)

/-- The merge loop of `scrapeCurrentPageAndContinue` (content.ts lines
174-180): each page order is appended to `collectedOrders` and its id
to `seenOrderIds` unless the id is already present. -/
def mergeOrders (collected : List Order) (seen : List String)
    (page : List Order) : List Order × List String :=
  page.foldl
    (fun acc o =>
      if acc.2.contains o.orderId then acc
      else (acc.1 ++ [o], acc.2 ++ [o.orderId]))
    (collected, seen)

/-- One page-level accumulation step: filter the page's parsed orders
against the current seen set, then merge. -/
def pageStep (startDate endDate : Option String) (exportAll : Bool)
    (st : List Order × List String) (parsedPage : List Order) :
    List Order × List String :=
  mergeOrders st.1 st.2
    (scrapeVisibleOrders startDate endDate exportAll st.2 parsedPage)

/-- The state-transition portion of `scrapeCurrentPageAndContinue`
(content.ts lines 165-218): scrape, merge, then either advance to the
next page of the current year (next-page affordance present and the
page yielded at least one order) or move to the next year.  Navigation,
persistence and the finished-export handoff are external effects on top
of this state change. -/
def scrapeStep (st : ExportState) (parsedPage : List Order)
    (hasNextPage : Bool) : ExportState :=
  let pageOrders := scrapeVisibleOrders st.startDate st.endDate
    st.exportAll st.seenOrderIds parsedPage
  let merged := mergeOrders st.collectedOrders st.seenOrderIds pageOrders
  let st1 := { st with collectedOrders := merged.1, seenOrderIds := merged.2 }
  if hasNextPage ∧ pageOrders.length > 0 then
    { st1 with currentStartIndex := st1.currentStartIndex + 10 }
  else
    { st1 with currentYearIndex := st1.currentYearIndex + 1,
               currentStartIndex := 0 }

/-- The continuation record built by `startExport` (content.ts lines
117-129): `currentYearIndex = 0`, `currentStartIndex = 0`, empty
collected and seen sets. -/
def initExportState (format : ExportFormat)
    (startDate endDate : Option String) (exportAll : Bool)
    (yearsToProcess : List String) (baseUrl : String) : ExportState :=
  { inProgress := true
    format := format
    startDate := startDate
    endDate := endDate
    exportAll := exportAll
    yearsToProcess := yearsToProcess
    currentYearIndex := 0
    currentStartIndex := 0
    collectedOrders := []
    seenOrderIds := []
    baseUrl := baseUrl }

/-- `browser.i18n.getMessage(key) || key` — the i18n table is an
external collaborator, so the lookup resolves to its own fallback, the
key. -/
def getMessage (key : String) : String := key

/-- The 14 fixed CSV header keys of `convertToCSV` (content.ts lines
1041-1056). -/
def csvHeaderKeys : List String :=
  ["csvHeaderOrderId", "csvHeaderOrderDate", "csvHeaderTotalAmount",
   "csvHeaderCurrency", "csvHeaderTotalSavings", "csvHeaderStatus",
   "csvHeaderItemTitle", "csvHeaderItemAsin", "csvHeaderItemQuantity",
   "csvHeaderItemPrice", "csvHeaderItemDiscount", "csvHeaderPromotions",
   "csvHeaderItemUrl", "csvHeaderDetailsUrl"]

def csvHeaderRow : String :=
  String.intercalate "," (csvHeaderKeys.map getMessage)

/-- Rendering of a JavaScript number into a CSV cell.  The exact
JS `Number.prototype.toString` digit string is abstracted by the `ℚ`
printer; no counted property depends on the digits. -/
def numStr (q : ℚ) : String := toString q

/-- `.replace(/"/g, '""')`. -/
def escQuotes (s : String) : String := s.replace "\"" "\"\""

/-- Wrap a cell in double quotes, as the template literals do. -/
def quoteCell (s : String) : String := "\"" ++ s ++ "\""

/-- `order.promotions.map(p => desc + ': €' + amount).join('; ')` with
quotes doubled (content.ts lines 1061-1064). -/
def promotionsStr (o : Order) : String :=
  escQuotes (String.intercalate "; "
    (o.promotions.map (fun p => p.description ++ ": €" ++ numStr p.amount)))

/-- The single row emitted for an order with no items (content.ts lines
1066-1084): item-scoped columns empty. -/
def zeroItemRow (o : Order) : String :=
  String.intercalate ","
    [quoteCell o.orderId, quoteCell o.orderDate, numStr o.totalAmount,
     quoteCell o.currency, numStr o.totalSavings,
     quoteCell (escQuotes o.orderStatus), "", "", "", "", "",
     quoteCell (promotionsStr o), "", quoteCell o.detailsUrl]

/-- The row emitted for item number `index` of an order (content.ts
lines 1086-1105): order-level aggregates only on the first item row. -/
def itemRow (o : Order) (index : Nat) (item : OrderItem) : String :=
  String.intercalate ","
    [quoteCell o.orderId, quoteCell o.orderDate, numStr o.totalAmount,
     quoteCell o.currency,
     (if index = 0 then numStr o.totalSavings else ""),
     quoteCell (escQuotes o.orderStatus), quoteCell (escQuotes item.title),
     quoteCell item.asin, numStr item.quantity, numStr item.price,
     numStr item.discount,
     (if index = 0 then quoteCell (promotionsStr o) else ""),
     quoteCell item.itemUrl, quoteCell o.detailsUrl]

/-- The rows one order contributes to the CSV. -/
def orderRows (o : Order) : List String :=
  if o.items.length = 0 then [zeroItemRow o]
  else o.items.enum.map (fun p => itemRow o p.1 p.2)

/-- The `rows` array of `convertToCSV`: the header row followed by each
order's rows, appended in order. -/
def convertToCSVRows (orders : List Order) : List String :=
  orders.foldl (fun rows o => rows ++ orderRows o) [csvHeaderRow]

/-- `convertToCSV` (content.ts lines 1040-1110). -/
def convertToCSV (orders : List Order) : String :=
  String.intercalate "\n" (convertToCSVRows orders)

/-- `\d` (ASCII digits, as in JavaScript regexes without the unicode
flag). -/
def isDigitCh (c : Char) : Bool := 48 ≤ c.toNat ∧ c.toNat ≤ 57

/-- `\s` restricted to the whitespace forms occurring in the scraped
strings (space, tab, line feed, carriage return). -/
def isWsCh (c : Char) : Bool :=
  c.toNat = 32 ∨ c.toNat = 9 ∨ c.toNat = 10 ∨ c.toNat = 13

/-- Numeric value of a digit character. -/
def digVal (c : Char) : Nat := c.toNat - 48

/-- Value of a digit string, most significant first. -/
def digitsVal (l : List Char) : Nat :=
  l.foldl (fun a c => 10 * a + digVal c) 0

/-- The leading decimal number of a string: models both
`parseInt(year)` on the scraped 4-digit year tokens and
`new Date(isoString).getFullYear()` on canonical `YYYY-MM-DD` strings,
which read the year from the leading digits. -/
def leadingNat (s : String) : Nat :=
  digitsVal (s.data.takeWhile isDigitCh)

/-- `ExportOptions` from `src/types/index.ts`. -/
structure ExportOptions where
  format : ExportFormat
  startDate : Option String
  endDate : Option String
  exportAll : Bool
  deriving Repr, DecidableEq

/-- Outcome of `startExport` before any navigation: either a
user-visible abort with nothing persisted, or the continuation record
it persists. -/
inductive StartResult where
  | aborted (message : String)
  | started (st : ExportState)
  deriving Repr, DecidableEq

/-- The year filter of `startExport` (content.ts lines 99-107). -/
def filteredYears (options : ExportOptions)
    (availableYears : List String) : List String :=
  match options.exportAll, options.startDate, options.endDate with
  | false, some sd, some ed =>
      availableYears.filter (fun year =>
        leadingNat sd ≤ leadingNat year ∧ leadingNat year ≤ leadingNat ed)
  | _, _, _ => availableYears

/-- `startExport` (content.ts lines 91-146) up to its first effect:
discovered years are an argument (the DOM scan `getAvailableYears`),
and the result records whether it aborted with `alert` before
persisting anything, or which continuation record it saves. -/
def startExport (options : ExportOptions) (availableYears : List String)
    (baseUrl : String) : StartResult :=
  let yearsToProcess := filteredYears options availableYears
  if yearsToProcess.length = 0 then
    StartResult.aborted (getMessage "noYearsFound")
  else
    StartResult.started (initExportState options.format options.startDate
      options.endDate options.exportAll yearsToProcess baseUrl)

/-- A requested range whose start date is after its end date but whose
bounds lie in the same calendar year. -/
def invertedSameYearOptions : ExportOptions :=
  ⟨ExportFormat.csv, some "2024-12-31", some "2024-01-01", false⟩

/-- `calculateProgress` (content.ts lines 268-272):
`Math.floor((yearProgress + pageProgress / n) * 75) + 5` with
`yearProgress = currentYearIndex / n` and
`pageProgress = min(currentStartIndex / 100, 0.9)`. -/
def calculateProgress (st : ExportState) : ℤ :=
  let n : ℚ := (st.yearsToProcess.length : ℚ)
  let yearProgress : ℚ := (st.currentYearIndex : ℚ) / n
  let pageProgress : ℚ := min ((st.currentStartIndex : ℚ) / 100) (9/10)
  ⌊(yearProgress + pageProgress / n) * 75⌋ + 5

/-- A concrete mid-export continuation state: two years to process,
first year, second page. -/
def midExportState : ExportState :=
  { initExportState ExportFormat.json none none true ["2024", "2023"]
      "https://www.amazon.de/your-orders/orders" with
    currentStartIndex := 10 }

/-- `parseInt(s, 10)` as applied to the quantity texts: skip leading
whitespace, read the decimal digit prefix, `NaN` (`none`) when there is
none.  (The inputs at hand are badge texts and `\\d+` captures; sign
prefixes do not occur there.) -/
def jsParseIntLeading (l : List Char) : Option Nat :=
  let l1 := l.dropWhile isWsCh
  let ds := l1.takeWhile isDigitCh
  if ds.isEmpty then none else some (digitsVal ds)

/-- The visual-badge half of the quantity resolution in
`parseOrderItems` (content.ts lines 696-715): walking outward through
the ancestor chain, the first badge text that parses to a quantity
strictly greater than 0 wins; badges that are empty, unparseable or
non-positive are passed over without stopping the walk. -/
def badgeQty (badgeTexts : List String) : Option Nat :=
  badgeTexts.findSome? (fun t =>
    match jsParseIntLeading t.data with
    | some q => if 0 < q then some q else none
    | none => none)

/-- The full quantity resolution of `parseOrderItems` (content.ts lines
696-729): the badge walk, then the `Qty/Quantity/Menge/Anzahl: N` text
fallback, then the default 1.  `fallbackCaptures` lists, per matching
ancestor in inner-to-outer order, the numeric value of the regex's
`(\\d+)` capture (a digit string, so its `parseInt` is its value); the
fallback takes the first one with no positivity check. -/
def resolveQuantity (badgeTexts : List String)
    (fallbackCaptures : List Nat) : Nat :=
  match badgeQty badgeTexts with
  | some q => q
  | none =>
      match fallbackCaptures with
      | [] => 1
      | c :: _ => c

/-- The character for a decimal digit value. -/
def digitChar (n : Nat) : Char :=
  match n with
  | 0 => '0' | 1 => '1' | 2 => '2' | 3 => '3' | 4 => '4'
  | 5 => '5' | 6 => '6' | 7 => '7' | 8 => '8' | _ => '9'

/-- Decimal rendering of a natural number, most significant digit
first: the character sequence JavaScript template literals produce for
the day and year numbers. -/
def natChars (n : Nat) : List Char :=
  if _h : n < 10 then [digitChar n]
  else natChars (n / 10) ++ [digitChar (n % 10)]
decreasing_by exact Nat.div_lt_self (by omega) (by omega)

/-- `[a-z]` under the `i` flag (the input is lowercased first, but the
flag also admits `A-Z`). -/
def isEnLetter (c : Char) : Bool :=
  (97 ≤ c.toNat ∧ c.toNat ≤ 122) ∨ (65 ≤ c.toNat ∧ c.toNat ≤ 90)

/-- `[a-zäöü]` under the `i` flag. -/
def isGermanLetter (c : Char) : Bool :=
  isEnLetter c ∨ c.toNat = 228 ∨ c.toNat = 246 ∨ c.toNat = 252
    ∨ c.toNat = 196 ∨ c.toNat = 214 ∨ c.toNat = 220

/-- `\.?` — the optional dot is consumed greedily; not consuming a
present dot can never lead to a match, because what follows must be
whitespace or a month letter and a dot is neither. -/
def skipDot (l : List Char) : List Char :=
  match l with
  | c :: r => if c = '.' then r else c :: r
  | [] => []

/-- `,?` — same greedy reasoning as `skipDot`. -/
def skipComma (l : List Char) : List Char :=
  match l with
  | c :: r => if c = ',' then r else c :: r
  | [] => []

/-- `(\d{4})`: exactly four digit characters (anything may follow). -/
def fourDigits (l : List Char) : Option Nat :=
  match l with
  | a :: b :: c :: d :: _ =>
      if isDigitCh a ∧ isDigitCh b ∧ isDigitCh c ∧ isDigitCh d then
        some (digitsVal [a, b, c, d])
      else none
  | _ => none

/-- The remainder `\.?\s*([a-zäöü]+)\s*(\d{4})` of the German date
regex after the day digits.  `\s*` and the letter run are matched by
maximal munch; no backtracking can help because the follow sets are
disjoint character classes. -/
def germanTail (day : Nat) (l : List Char) :
    Option (Nat × List Char × Nat) :=
  let l1 := (skipDot l).dropWhile isWsCh
  let name := l1.takeWhile isGermanLetter
  if name.isEmpty then none
  else
    match fourDigits ((l1.dropWhile isGermanLetter).dropWhile isWsCh) with
    | some y => some (day, name, y)
    | none => none

/-- Attempt the German pattern `(\d{1,2})\.?\s*([a-zäöü]+)\s*(\d{4})`
anchored at the head of `l`: the day group is greedy, so two digits are
tried before backtracking to one. -/
def tryGermanAt (l : List Char) : Option (Nat × List Char × Nat) :=
  match l with
  | [] => none
  | c1 :: rest =>
      if isDigitCh c1 then
        match rest with
        | c2 :: rest2 =>
            if isDigitCh c2 then
              match germanTail (10 * digVal c1 + digVal c2) rest2 with
              | some r => some r
              | none => germanTail (digVal c1) rest
            else germanTail (digVal c1) rest
        | [] => germanTail (digVal c1) []
      else none

/-- Leftmost match of the German date pattern, as `String.match`
produces: try each start position left to right. -/
def findGerman : List Char → Option (Nat × List Char × Nat)
  | [] => none
  | c :: rest =>
      match tryGermanAt (c :: rest) with
      | some r => some r
      | none => findGerman rest

/-- The remainder `,?\s*(\d{4})` of the English date regex after the
day digits. -/
def englishTail (name : List Char) (day : Nat) (l : List Char) :
    Option (List Char × Nat × Nat) :=
  match fourDigits ((skipComma l).dropWhile isWsCh) with
  | some y => some (name, day, y)
  | none => none

/-- Attempt the English pattern `([a-z]+)\s+(\d{1,2}),?\s*(\d{4})`
anchored at the head of `l`. -/
def tryEnglishAt (l : List Char) : Option (List Char × Nat × Nat) :=
  let name := l.takeWhile isEnLetter
  if name.isEmpty then none
  else
    let l1 := l.dropWhile isEnLetter
    if (l1.takeWhile isWsCh).isEmpty then none
    else
      match l1.dropWhile isWsCh with
      | [] => none
      | c1 :: rest =>
          if isDigitCh c1 then
            match rest with
            | c2 :: rest2 =>
                if isDigitCh c2 then
                  match englishTail name (10 * digVal c1 + digVal c2) rest2 with
                  | some r => some r
                  | none => englishTail name (digVal c1) rest
                else englishTail name (digVal c1) rest
            | [] => englishTail name (digVal c1) []
          else none

/-- Leftmost match of the English date pattern. -/
def findEnglish : List Char → Option (List Char × Nat × Nat)
  | [] => none
  | c :: rest =>
      match tryEnglishAt (c :: rest) with
      | some r => some r
      | none => findEnglish rest

/-- `germanMonths` (content.ts lines 975-988). -/
def germanMonthsTable : List (String × Nat) :=
  [("januar", 1), ("februar", 2), ("märz", 3), ("april", 4), ("mai", 5),
   ("juni", 6), ("juli", 7), ("august", 8), ("september", 9),
   ("oktober", 10), ("november", 11), ("dezember", 12)]

/-- `englishMonths` (content.ts lines 990-1003). -/
def englishMonthsTable : List (String × Nat) :=
  [("january", 1), ("february", 2), ("march", 3), ("april", 4),
   ("may", 5), ("june", 6), ("july", 7), ("august", 8),
   ("september", 9), ("october", 10), ("november", 11), ("december", 12)]

/-- `allMonths = { ...germanMonths, ...englishMonths }`: object-key
lookup; the four shared keys carry equal values in both tables, so
lookup order is immaterial. -/
def allMonthsTable : List (String × Nat) :=
  germanMonthsTable ++ englishMonthsTable

/-- `allMonths[monthName]` — `none` models the falsy `undefined` of a
missing key (all present values are ≥ 1, hence truthy). -/
def monthNum (name : List Char) : Option Nat :=
  (allMonthsTable.find? (fun p => p.1.data == name)).map (fun p => p.2)

/-- `.trim()` — strip whitespace from both ends. -/
def jsTrim (l : List Char) : List Char :=
  ((l.dropWhile isWsCh).reverse.dropWhile isWsCh).reverse

/-- `dateText.trim().toLowerCase()` (content.ts line 1006), as a
character list. -/
def cleanOf (s : String) : List Char :=
  (jsTrim s.data).map Char.toLower

/-- `String(n).padStart(2, '0')` for the at-most-two-digit month and
day numbers. -/
def pad2 (n : Nat) : List Char :=
  if n < 10 then ['0', digitChar n] else natChars n

/-- The canonical ISO rendering the parser returns:
`year-month-day` with month and day zero-padded to two digits. -/
def isoDate (y m d : Nat) : String :=
  String.mk (natChars y ++ '-' :: (pad2 m ++ '-' :: pad2 d))

/-- `parseDate` (content.ts lines 972-1035): lowercase and trim, try
the German pattern, on acceptance failure fall through to the English
pattern; each acceptance requires the year in [2000, 2100] and a known
month name. -/
def parseDate (dateText : String) : Option String :=
  let clean := cleanOf dateText
  let germanRes : Option String :=
    match findGerman clean with
    | some (d, name, y) =>
        if 2000 ≤ y ∧ y ≤ 2100 then
          match monthNum name with
          | some m => some (isoDate y m d)
          | none => none
        else none
    | none => none
  match germanRes with
  | some r => some r
  | none =>
      match findEnglish clean with
      | some (name, d, y) =>
          if 2000 ≤ y ∧ y ≤ 2100 then
            match monthNum name with
            | some m => some (isoDate y m d)
            | none => none
          else none
      | none => none

/-- Capitalised German month name, as printed on the order page. -/
def germanMonthName (m : Nat) : String :=
  match m with
  | 1 => "Januar" | 2 => "Februar" | 3 => "März" | 4 => "April"
  | 5 => "Mai" | 6 => "Juni" | 7 => "Juli" | 8 => "August"
  | 9 => "September" | 10 => "Oktober" | 11 => "November" | _ => "Dezember"

/-- Capitalised English month name. -/
def englishMonthName (m : Nat) : String :=
  match m with
  | 1 => "January" | 2 => "February" | 3 => "March" | 4 => "April"
  | 5 => "May" | 6 => "June" | 7 => "July" | 8 => "August"
  | 9 => "September" | 10 => "October" | 11 => "November" | _ => "December"

/-- Canonical German rendering, e.g. `15. Januar 2024`. -/
def formatGerman (y m d : Nat) : String :=
  String.mk (natChars d ++ '.' :: ' ' :: ((germanMonthName m).data
    ++ ' ' :: natChars y))

/-- Canonical English rendering, e.g. `January 15, 2024`. -/
def formatEnglish (y m d : Nat) : String :=
  String.mk ((englishMonthName m).data ++ ' ' :: (natChars d
    ++ ',' :: ' ' :: natChars y))

/-- Calendar length of a month (Gregorian). -/
def daysInMonth (y m : Nat) : Nat :=
  if m = 2 then
    (if (y % 4 = 0 ∧ y % 100 ≠ 0) ∨ y % 400 = 0 then 29 else 28)
  else if m = 4 ∨ m = 6 ∨ m = 9 ∨ m = 11 then 30 else 31

theorem round2_cents (q : ℚ) : IsCents (round2 q) := ⟨⌊q * 100 + 1/2⌋, rfl⟩

theorem round2_of_cents {q : ℚ} (h : IsCents q) : round2 q = q := by
  obtain ⟨n, rfl⟩ := h
  have h100 : ((n : ℚ) / 100) * 100 = (n : ℚ) := by field_simp
  rw [round2, h100]
  have : ⌊(n : ℚ) + 1/2⌋ = n := by
    rw [Int.floor_eq_iff]
    constructor <;> linarith
  rw [this]

theorem round2_mono {q r : ℚ} (h : q ≤ r) : round2 q ≤ round2 r := by
  unfold round2
  have h1 : (⌊q * 100 + 1/2⌋ : ℤ) ≤ ⌊r * 100 + 1/2⌋ := by
    apply Int.floor_le_floor; linarith
  have h2 : ((⌊q * 100 + 1/2⌋ : ℤ) : ℚ) ≤ ((⌊r * 100 + 1/2⌋ : ℤ) : ℚ) := by
    exact_mod_cast h1
  linarith

theorem round2_nonneg {q : ℚ} (h : 0 ≤ q) : 0 ≤ round2 q := by
  have h0 : round2 0 = 0 := round2_of_cents ⟨0, by norm_num⟩
  calc (0 : ℚ) = round2 0 := h0.symm
    _ ≤ round2 q := round2_mono h

theorem round2_le (q : ℚ) : round2 q ≤ q + 1/100 := by
  unfold round2
  have h1 : (⌊q * 100 + 1/2⌋ : ℚ) ≤ q * 100 + 1/2 := Int.floor_le _
  linarith

theorem round2_pos_bound {q : ℚ} (h : 1/100 < round2 q) : 0 < q := by
  by_contra hq
  push_neg at hq
  have h0 : round2 q ≤ round2 0 := round2_mono hq
  have : round2 0 = 0 := round2_of_cents ⟨0, by norm_num⟩
  rw [this] at h0
  linarith

theorem round2_eq_of (q : ℚ) (n : ℤ) (h1 : (n : ℚ) ≤ q * 100 + 1/2)
    (h2 : q * 100 + 1/2 < n + 1) : round2 q = (n : ℚ) / 100 := by
  unfold round2
  rw [Int.floor_eq_iff.mpr ⟨h1, h2⟩]

theorem IsCents.sub {a b : ℚ} (ha : IsCents a) (hb : IsCents b) :
    IsCents (a - b) := by
  obtain ⟨n, rfl⟩ := ha
  obtain ⟨m, rfl⟩ := hb
  exact ⟨n - m, by push_cast; ring⟩

theorem promoSum_aux (ps : List Promotion) (a : ℚ) :
    ps.foldl (fun s p => s + p.amount) a = a + promoSum ps := by
  induction ps generalizing a with
  | nil => simp [promoSum]
  | cons p t ih =>
      simp only [promoSum, List.foldl_cons] at *
      rw [ih, ih (0 + p.amount)]
      ring

theorem promoSum_nil : promoSum [] = 0 := rfl

theorem promoSum_cons (p : Promotion) (t : List Promotion) :
    promoSum (p :: t) = p.amount + promoSum t := by
  have h := promoSum_aux t (0 + p.amount)
  simp only [promoSum, List.foldl_cons]
  rw [h]
  simp only [promoSum]
  ring

theorem promoSum_nonneg {ps : List Promotion}
    (h : ∀ p ∈ ps, 0 < p.amount) : 0 ≤ promoSum ps := by
  induction ps with
  | nil => simp [promoSum_nil]
  | cons p t ih =>
      have hp := h p (List.mem_cons_self p t)
      have ht : ∀ q ∈ t, 0 < q.amount := fun q hq => h q (List.mem_cons_of_mem p hq)
      have := ih ht
      rw [promoSum_cons]
      linarith

theorem promoSum_cents {ps : List Promotion}
    (h : ∀ p ∈ ps, IsCents p.amount) : IsCents (promoSum ps) := by
  induction ps with
  | nil => exact ⟨0, by simp [promoSum_nil]⟩
  | cons p t ih =>
      have hp := h p (List.mem_cons_self p t)
      have ht : ∀ q ∈ t, IsCents q.amount := fun q hq => h q (List.mem_cons_of_mem p hq)
      obtain ⟨n, hn⟩ := hp
      obtain ⟨m, hm⟩ := ih ht
      refine ⟨n + m, ?_⟩
      rw [promoSum_cons, hm, hn]
      push_cast
      ring

theorem itemsTotal_orderZeroTotal : itemsTotal orderZeroTotal = 10 := by
  simp [itemsTotal, orderZeroTotal]

theorem itemsTotal_orderSixteen : itemsTotal orderSixteen = 18 := by
  norm_num [itemsTotal, orderSixteen]

theorem itemsTotal_orderTen : itemsTotal orderTen = 10 := by
  simp [itemsTotal, orderTen]

theorem round2_zero : round2 0 = 0 := round2_of_cents ⟨0, by norm_num⟩

/-- C1 counterexample: for the order whose `totalAmount` is 0 (unparsed)
with one item priced 10, `itemsTotal` exceeds `totalAmount` by more than
the found-promotion sum plus 0.01, yet the code synthesizes no promotion
and sets `totalSavings` to 0, not to `itemsTotal - totalAmount`: the
`order.totalAmount > 0` guard (content.ts line 946) blocks the branch. -/
theorem reconcile_claim_fails_on_zero_total :
    itemsTotal orderZeroTotal
        > orderZeroTotal.totalAmount + promoSum [] + 1/100
      ∧ (reconcilePromotions orderZeroTotal []).promotions = []
      ∧ (reconcilePromotions orderZeroTotal []).totalSavings = 0
      ∧ (reconcilePromotions orderZeroTotal []).totalSavings
          ≠ round2 (itemsTotal orderZeroTotal - orderZeroTotal.totalAmount) := by
  have hIT := itemsTotal_orderZeroTotal
  have hTA : orderZeroTotal.totalAmount = 0 := rfl
  have hcond : ¬(itemsTotal orderZeroTotal > orderZeroTotal.totalAmount
      ∧ orderZeroTotal.totalAmount > 0) := by
    rw [hIT, hTA]; norm_num
  have hres : reconcilePromotions orderZeroTotal []
      = { orderZeroTotal with promotions := [], totalSavings := round2 (promoSum []) } := by
    rw [reconcilePromotions, if_neg hcond]
  have hr10 : round2 (itemsTotal orderZeroTotal - orderZeroTotal.totalAmount)
      = 10 := by
    rw [hIT, hTA]
    have h10 : round2 ((10 : ℚ) - 0) = (10 : ℚ) - 0 :=
      round2_of_cents ⟨1000, by norm_num⟩
    rw [h10]; norm_num
  refine ⟨?_, ?_, ?_, ?_⟩
  · rw [hIT, hTA, promoSum_nil]; norm_num
  · rw [hres]
  · rw [hres]; show round2 (promoSum []) = 0
    rw [promoSum_nil, round2_zero]
  · rw [hres, hr10]; show round2 (promoSum []) ≠ 10
    rw [promoSum_nil, round2_zero]; norm_num

/-- C1 (amended): for every order with a positive parsed `totalAmount`
and found promotions whose amounts are positive whole-cent values, let
`S` be the found-promotion sum and `D = round2(itemsTotal -
totalAmount)`.  If `D > S + 0.01` the result carries exactly one extra
synthesized "additional discount" entry of amount `D - S` and
`totalSavings = D`; otherwise the promotions are exactly the found ones
and `totalSavings = round2 S`. -/
theorem reconcilePromotions_residual (o : Order) (found : List Promotion)
    (hfound : ∀ p ∈ found, 0 < p.amount ∧ IsCents p.amount)
    (htot : 0 < o.totalAmount) :
    (round2 (itemsTotal o - o.totalAmount) > promoSum found + 1/100 →
      (reconcilePromotions o found).promotions
          = found ++ [⟨additionalDiscountMsg,
              round2 (itemsTotal o - o.totalAmount) - promoSum found⟩]
        ∧ (reconcilePromotions o found).totalSavings
            = round2 (itemsTotal o - o.totalAmount))
    ∧ (round2 (itemsTotal o - o.totalAmount) ≤ promoSum found + 1/100 →
      (reconcilePromotions o found).promotions = found
        ∧ (reconcilePromotions o found).totalSavings
            = round2 (promoSum found)) := by
  have hS0 : 0 ≤ promoSum found :=
    promoSum_nonneg (fun p hp => (hfound p hp).1)
  have hScents : IsCents (promoSum found) :=
    promoSum_cents (fun p hp => (hfound p hp).2)
  have hDcents : IsCents (round2 (itemsTotal o - o.totalAmount)) :=
    round2_cents _
  constructor
  · intro hgt
    have hx : 0 < itemsTotal o - o.totalAmount := by
      apply round2_pos_bound
      linarith
    have hcond : itemsTotal o > o.totalAmount ∧ o.totalAmount > 0 :=
      ⟨by linarith, htot⟩
    have hadd : round2 (round2 (itemsTotal o - o.totalAmount) - promoSum found)
        = round2 (itemsTotal o - o.totalAmount) - promoSum found :=
      round2_of_cents (hDcents.sub hScents)
    have haddgt : round2 (itemsTotal o - o.totalAmount) - promoSum found
        > 1/100 := by linarith
    have hDfix : round2 (round2 (itemsTotal o - o.totalAmount))
        = round2 (itemsTotal o - o.totalAmount) := round2_of_cents hDcents
    rw [reconcilePromotions, if_pos hcond, if_pos hgt, hadd, if_pos haddgt,
      hDfix]
    exact ⟨rfl, rfl⟩
  · intro hle
    by_cases hcond : itemsTotal o > o.totalAmount ∧ o.totalAmount > 0
    · have hngt : ¬(round2 (itemsTotal o - o.totalAmount)
          > promoSum found + 1/100) := by linarith
      rw [reconcilePromotions, if_pos hcond, if_neg hngt]
      exact ⟨rfl, rfl⟩
    · rw [reconcilePromotions, if_neg hcond]
      exact ⟨rfl, rfl⟩

/-- C1 witness: the spec's own scenario.  Items 10.00 + 8.00 against
`totalAmount` 16.00 with no found promotions yield exactly one
synthesized promotion of amount 2.00 and `totalSavings` 2.00. -/
theorem reconcilePromotions_residual_witness :
    (reconcilePromotions orderSixteen []).promotions
        = [⟨additionalDiscountMsg, 2⟩]
      ∧ (reconcilePromotions orderSixteen []).totalSavings = 2 := by
  have h := reconcilePromotions_residual orderSixteen []
    (by intro p hp; cases hp) (by rw [show orderSixteen.totalAmount = 16 from rfl]; norm_num)
  have hr2 : round2 (itemsTotal orderSixteen - orderSixteen.totalAmount) = 2 := by
    rw [itemsTotal_orderSixteen, show orderSixteen.totalAmount = 16 from rfl]
    have h2 : round2 ((18 : ℚ) - 16) = (18 : ℚ) - 16 :=
      round2_of_cents ⟨200, by norm_num⟩
    rw [h2]; norm_num
  have hgt : round2 (itemsTotal orderSixteen - orderSixteen.totalAmount)
      > promoSum [] + 1/100 := by
    rw [hr2, promoSum_nil]; norm_num
  obtain ⟨h1, h2⟩ := h.1 hgt
  refine ⟨?_, ?_⟩
  · rw [h1, hr2, promoSum_nil]; norm_num
  · rw [h2, hr2]

/-- C2 counterexample: an order whose items exactly add up to its total
(`itemsTotal - totalAmount = 0`) but whose detail page yielded a found
promotion of 5.00 ends with `totalSavings = 5`, which exceeds
`itemsTotal - totalAmount` by far more than the 0.01 tolerance: found
promotions are never capped by the price gap. -/
theorem savings_bound_counterexample :
    (reconcilePromotions orderTen [⟨"Coupon", 5⟩]).totalSavings
      > itemsTotal orderTen - orderTen.totalAmount + 1/100 := by
  have hIT := itemsTotal_orderTen
  have hTA : orderTen.totalAmount = 10 := rfl
  have hS : promoSum [⟨"Coupon", 5⟩] = 5 := by
    rw [promoSum_cons, promoSum_nil]; norm_num
  have hcond : ¬(itemsTotal orderTen > orderTen.totalAmount
      ∧ orderTen.totalAmount > 0) := by
    rw [hIT, hTA]; norm_num
  have hres : (reconcilePromotions orderTen [⟨"Coupon", 5⟩]).totalSavings
      = round2 (promoSum [⟨"Coupon", 5⟩]) := by
    rw [reconcilePromotions, if_neg hcond]
  rw [hres, hS, hIT, hTA]
  have h5 : round2 (5 : ℚ) = 5 := round2_of_cents ⟨500, by norm_num⟩
  rw [h5]; norm_num

/-- C2 (amended): for every order and every list of found promotions
with positive amounts, the reconciled `totalSavings` is never negative
and never exceeds `max S (itemsTotal - totalAmount) + 0.01`, where `S`
is the found-promotion sum.  (The original bound over
`itemsTotal - totalAmount` alone fails because found promotions are not
capped by the price gap.) -/
theorem reconcilePromotions_savings_bounds (o : Order)
    (found : List Promotion) (hfound : ∀ p ∈ found, 0 < p.amount) :
    0 ≤ (reconcilePromotions o found).totalSavings
      ∧ (reconcilePromotions o found).totalSavings
          ≤ max (promoSum found) (itemsTotal o - o.totalAmount) + 1/100 := by
  have hS0 : 0 ≤ promoSum found := promoSum_nonneg hfound
  have hSmax : promoSum found ≤ max (promoSum found) (itemsTotal o - o.totalAmount) :=
    le_max_left _ _
  have hXmax : itemsTotal o - o.totalAmount
      ≤ max (promoSum found) (itemsTotal o - o.totalAmount) := le_max_right _ _
  have hfall : 0 ≤ round2 (promoSum found)
      ∧ round2 (promoSum found)
        ≤ max (promoSum found) (itemsTotal o - o.totalAmount) + 1/100 := by
    constructor
    · exact round2_nonneg hS0
    · have := round2_le (promoSum found)
      linarith
  rw [reconcilePromotions]
  by_cases hcond : itemsTotal o > o.totalAmount ∧ o.totalAmount > 0
  · rw [if_pos hcond]
    by_cases hgt : round2 (itemsTotal o - o.totalAmount) > promoSum found + 1/100
    · rw [if_pos hgt]
      by_cases haddgt : round2 (round2 (itemsTotal o - o.totalAmount) - promoSum found) > 1/100
      · rw [if_pos haddgt]
        have hDfix : round2 (round2 (itemsTotal o - o.totalAmount))
            = round2 (itemsTotal o - o.totalAmount) :=
          round2_of_cents (round2_cents _)
        show 0 ≤ round2 (round2 (itemsTotal o - o.totalAmount))
          ∧ round2 (round2 (itemsTotal o - o.totalAmount)) ≤ _
        rw [hDfix]
        constructor
        · linarith
        · have := round2_le (itemsTotal o - o.totalAmount)
          linarith
      · rw [if_neg haddgt]; exact hfall
    · rw [if_neg hgt]; exact hfall
  · rw [if_neg hcond]; exact hfall

/-- C2 witness: the bounds instantiated for the 10 + 8 versus 16
scenario with no found promotions. -/
theorem reconcilePromotions_savings_bounds_witness :
    0 ≤ (reconcilePromotions orderSixteen []).totalSavings
      ∧ (reconcilePromotions orderSixteen []).totalSavings
          ≤ max (promoSum [])
              (itemsTotal orderSixteen - orderSixteen.totalAmount) + 1/100 :=
  reconcilePromotions_savings_bounds orderSixteen [] (by intro p hp; cases hp)

theorem mergeOrders_invariant (page : List Order) :
    ∀ (collected : List Order) (seen : List String),
      seen = collected.map Order.orderId → seen.Nodup →
      (mergeOrders collected seen page).2
          = (mergeOrders collected seen page).1.map Order.orderId
        ∧ (mergeOrders collected seen page).2.Nodup := by
  induction page with
  | nil => intro collected seen h1 h2; exact ⟨h1, h2⟩
  | cons o t ih =>
      intro collected seen h1 h2
      show (mergeOrders collected seen (o :: t)).2 = _ ∧ _
      by_cases hc : seen.contains o.orderId
      · have hstep : mergeOrders collected seen (o :: t)
            = mergeOrders collected seen t := by
          simp only [mergeOrders, List.foldl_cons, if_pos hc]
        rw [hstep]
        exact ih collected seen h1 h2
      · have hstep : mergeOrders collected seen (o :: t)
            = mergeOrders (collected ++ [o]) (seen ++ [o.orderId]) t := by
          simp only [mergeOrders, List.foldl_cons, if_neg hc]
        rw [hstep]
        have hmem : o.orderId ∉ seen := by
          intro hmem
          exact hc (by simpa [List.contains] using hmem)
        apply ih
        · rw [h1]; simp
        · rw [List.nodup_append]
          refine ⟨h2, List.nodup_singleton _, ?_⟩
          intro a ha hmem2
          rw [List.mem_singleton] at hmem2
          subst hmem2
          exact hmem ha

/-- C4: across every sequence of scraped pages — including pages whose
containers repeat an orderId within one page or across pages — after
every merge step each orderId occurs at most once in the collected
orders, and `seenOrderIds` is exactly the list of their orderIds.
Quantifying over arbitrary page sequences covers every intermediate
state, each being the fold over a prefix. -/
theorem dedup_invariant (startDate endDate : Option String)
    (exportAll : Bool) (pages : List (List Order)) :
    ((pages.foldl (pageStep startDate endDate exportAll) ([], [])).1.map
        Order.orderId).Nodup
      ∧ (pages.foldl (pageStep startDate endDate exportAll) ([], [])).2
          = (pages.foldl (pageStep startDate endDate exportAll)
              ([], [])).1.map Order.orderId := by
  suffices h : ∀ (st : List Order × List String),
      st.2 = st.1.map Order.orderId → st.2.Nodup →
      ((pages.foldl (pageStep startDate endDate exportAll) st).2
          = (pages.foldl (pageStep startDate endDate exportAll) st).1.map
              Order.orderId)
        ∧ (pages.foldl (pageStep startDate endDate exportAll) st).2.Nodup by
    obtain ⟨h1, h2⟩ := h ([], []) rfl List.nodup_nil
    exact ⟨h1 ▸ h2, h1⟩
  induction pages with
  | nil => intro st h1 h2; exact ⟨h1, h2⟩
  | cons p t ih =>
      intro st h1 h2
      simp only [List.foldl_cons]
      obtain ⟨h1m, h2m⟩ := mergeOrders_invariant
        (scrapeVisibleOrders startDate endDate exportAll st.2 p) st.1 st.2 h1 h2
      exact ih _ h1m h2m

/-- C7: every coordinator step either advances `currentStartIndex` by
exactly the page size 10 keeping the year (when a next page exists and
the page yielded at least one order) or resets it to 0 and increments
`currentYearIndex`; consequently, in every state reachable from the
initial continuation record, `currentStartIndex` is a non-negative
multiple of the page size. -/
theorem pagination_invariant (format : ExportFormat)
    (startDate endDate : Option String) (exportAll : Bool)
    (years : List String) (baseUrl : String)
    (steps : List (List Order × Bool)) :
    (0 ≤ (steps.foldl (fun s x => scrapeStep s x.1 x.2)
          (initExportState format startDate endDate exportAll years
            baseUrl)).currentStartIndex
      ∧ (10 : ℤ) ∣ (steps.foldl (fun s x => scrapeStep s x.1 x.2)
          (initExportState format startDate endDate exportAll years
            baseUrl)).currentStartIndex)
    ∧ ∀ (st : ExportState) (page : List Order) (hasNext : Bool),
        ((scrapeStep st page hasNext).currentStartIndex
            = if hasNext ∧ (scrapeVisibleOrders st.startDate st.endDate
                  st.exportAll st.seenOrderIds page).length > 0
              then st.currentStartIndex + 10 else 0)
          ∧ ((scrapeStep st page hasNext).currentYearIndex
            = if hasNext ∧ (scrapeVisibleOrders st.startDate st.endDate
                  st.exportAll st.seenOrderIds page).length > 0
              then st.currentYearIndex else st.currentYearIndex + 1) := by
  have hstep : ∀ (st : ExportState) (page : List Order) (hasNext : Bool),
      ((scrapeStep st page hasNext).currentStartIndex
          = if hasNext ∧ (scrapeVisibleOrders st.startDate st.endDate
                st.exportAll st.seenOrderIds page).length > 0
            then st.currentStartIndex + 10 else 0)
        ∧ ((scrapeStep st page hasNext).currentYearIndex
          = if hasNext ∧ (scrapeVisibleOrders st.startDate st.endDate
                st.exportAll st.seenOrderIds page).length > 0
            then st.currentYearIndex else st.currentYearIndex + 1) := by
    intro st page hasNext
    by_cases h : hasNext ∧ (scrapeVisibleOrders st.startDate st.endDate
        st.exportAll st.seenOrderIds page).length > 0
    · simp only [scrapeStep, if_pos h]; simp [if_pos h]
    · simp only [scrapeStep, if_neg h]; simp [if_neg h]
  refine ⟨?_, hstep⟩
  suffices h : ∀ (st : ExportState),
      0 ≤ st.currentStartIndex → (10 : ℤ) ∣ st.currentStartIndex →
      0 ≤ (steps.foldl (fun s x => scrapeStep s x.1 x.2)
            st).currentStartIndex
        ∧ (10 : ℤ) ∣ (steps.foldl (fun s x => scrapeStep s x.1 x.2)
            st).currentStartIndex by
    exact h _ le_rfl ⟨0, rfl⟩
  induction steps with
  | nil => intro st h1 h2; exact ⟨h1, h2⟩
  | cons s t ih =>
      intro st h1 h2
      simp only [List.foldl_cons]
      apply ih
      · obtain ⟨hc, hy⟩ := hstep st s.1 s.2
        rw [hc]
        split
        · linarith
        · norm_num
      · obtain ⟨hc, hy⟩ := hstep st s.1 s.2
        rw [hc]
        split
        · exact dvd_add h2 ⟨1, rfl⟩
        · exact ⟨0, rfl⟩

theorem orderRows_length (o : Order) :
    (orderRows o).length = max 1 o.items.length := by
  rw [orderRows]
  by_cases h : o.items.length = 0
  · rw [if_pos h, h]; rfl
  · rw [if_neg h]
    rw [List.length_map, List.enum_length]
    omega

/-- C5: the CSV serializer emits exactly `1 + Σ max(1, #items)` rows:
one header row, one row per item for orders with items, and exactly one
row for an order with zero items. -/
theorem csv_row_count (orders : List Order) :
    (convertToCSVRows orders).length
        = 1 + (orders.map (fun o => max 1 o.items.length)).sum
      ∧ ∀ o : Order, (orderRows o).length = max 1 o.items.length := by
  refine ⟨?_, orderRows_length⟩
  suffices h : ∀ acc : List String,
      (orders.foldl (fun rows o => rows ++ orderRows o) acc).length
        = acc.length + (orders.map (fun o => max 1 o.items.length)).sum by
    simpa using h [csvHeaderRow]
  induction orders with
  | nil => intro acc; simp
  | cons o t ih =>
      intro acc
      simp only [List.foldl_cons, List.map_cons, List.sum_cons]
      rw [ih, List.length_append, orderRows_length]
      omega

/-- C6 counterexample: for the same-year inverted range (start
2024-12-31, end 2024-01-01) with year 2024 available, `startExport`
does not abort: both bounds have year 2024, the year filter keeps
["2024"], and a continuation record is persisted.  Only the year-level
intersection is checked; start-after-end within one year passes. -/
theorem startExport_inverted_range_counterexample :
    jsDateLt "2024-01-01" "2024-12-31" = true
      ∧ startExport invertedSameYearOptions ["2024"] "https://www.amazon.de/your-orders/orders"
          = StartResult.started (initExportState ExportFormat.csv
              (some "2024-12-31") (some "2024-01-01") false ["2024"]
              "https://www.amazon.de/your-orders/orders") := by
  constructor
  · decide
  · rfl

/-- C6 (amended): `startExport` aborts with the user-visible
"noYearsFound" message — returning before any continuation record is
built or persisted — exactly when the year intersection of the
available years with the requested range is empty; in particular it
always aborts when the requested start date's year exceeds the end
date's year.  A start-after-end range within a single year is not
detected here (the popup rejects it before sending), as the
counterexample shows. -/
theorem startExport_fail_fast (options : ExportOptions)
    (years : List String) (baseUrl : String) :
    (filteredYears options years = [] →
        startExport options years baseUrl
          = StartResult.aborted (getMessage "noYearsFound"))
    ∧ (filteredYears options years ≠ [] →
        startExport options years baseUrl
          = StartResult.started (initExportState options.format
              options.startDate options.endDate options.exportAll
              (filteredYears options years) baseUrl))
    ∧ (∀ sd ed, options.exportAll = false → options.startDate = some sd →
        options.endDate = some ed → leadingNat ed < leadingNat sd →
        startExport options years baseUrl
          = StartResult.aborted (getMessage "noYearsFound")) := by
  refine ⟨?_, ?_, ?_⟩
  · intro h
    rw [startExport, if_pos]
    rw [h]; rfl
  · intro h
    rw [startExport, if_neg]
    simpa [List.length_eq_zero] using h
  · intro sd ed hall hsd hed hlt
    have hempty : filteredYears options years = [] := by
      rw [filteredYears, hall, hsd, hed]
      simp only [List.filter_eq_nil_iff]
      intro y hy
      simp only [decide_eq_true_eq, not_and]
      intro h1 h2
      omega
    rw [startExport, if_pos]
    rw [hempty]; rfl

/-- C6 witness: a cross-year inverted range (start year 2025, end year
2023) aborts even though the year 2024 is available. -/
theorem startExport_fail_fast_witness :
    startExport ⟨ExportFormat.json, some "2025-06-01", some "2023-06-01", false⟩
        ["2024"] "https://www.amazon.de/your-orders/orders"
      = StartResult.aborted (getMessage "noYearsFound") :=
  (startExport_fail_fast
      ⟨ExportFormat.json, some "2025-06-01", some "2023-06-01", false⟩
      ["2024"] "https://www.amazon.de/your-orders/orders").2.2
    "2025-06-01" "2023-06-01" rfl rfl rfl (by decide)

theorem progressFloor_band (i c n : ℚ) (hi1 : i + 1 ≤ n) (hi0 : 0 ≤ i)
    (hc : 0 ≤ c) (hn : 0 < n) :
    0 ≤ ⌊(i / n + min (c/100) (9/10) / n) * 75⌋
      ∧ ⌊(i / n + min (c/100) (9/10) / n) * 75⌋ < 75 := by
  have hm0 : (0 : ℚ) ≤ min (c/100) (9/10) := by
    rw [le_min_iff]; constructor
    · positivity
    · norm_num
  have hm9 : min (c/100) (9/10) ≤ 9/10 := min_le_right _ _
  constructor
  · rw [Int.le_floor]
    push_cast
    positivity
  · rw [Int.floor_lt]
    push_cast
    have hA : i / n + min (c/100) (9/10) / n < 1 := by
      rw [div_add_div_same, div_lt_one hn]
      linarith
    linarith

theorem progressFloor_mono_page (i c n : ℚ) (hn : 0 < n) :
    ⌊(i / n + min (c/100) (9/10) / n) * 75⌋
      ≤ ⌊(i / n + min ((c + 10)/100) (9/10) / n) * 75⌋ := by
  apply Int.floor_le_floor
  have hle : min (c/100) (9/10) ≤ min ((c + 10)/100) (9/10) :=
    min_le_min (by linarith) le_rfl
  have hdiv : min (c/100) (9/10) / n ≤ min ((c + 10)/100) (9/10) / n :=
    (div_le_div_iff_of_pos_right hn).mpr hle
  linarith

theorem progressFloor_mono_year (i c n : ℚ) (hn : 0 < n) :
    ⌊(i / n + min (c/100) (9/10) / n) * 75⌋
      ≤ ⌊((i + 1) / n + min ((0 : ℚ)/100) (9/10) / n) * 75⌋ := by
  apply Int.floor_le_floor
  have hzero : min ((0 : ℚ)/100) (9/10) = 0 := by
    rw [min_eq_left] <;> norm_num
  rw [hzero, zero_div, add_zero]
  have hm9 : min (c/100) (9/10) ≤ 9/10 := min_le_right _ _
  have key : i + min (c/100) (9/10) ≤ i + 1 := by linarith
  have hdivs : i / n + min (c/100) (9/10) / n ≤ (i + 1) / n := by
    rw [div_add_div_same]
    exact (div_le_div_iff_of_pos_right hn).mpr key
  exact mul_le_mul_of_nonneg_right hdivs (by norm_num)

/-- C8: for every continuation state with a valid year index and
non-negative page offset the progress value lies in the 5–80 band, and
neither coordinator advance step — same-year page advance by the page
size, or year advance with the offset reset to 0 — ever decreases it. -/
theorem calculateProgress_spec (st : ExportState)
    (hi : st.currentYearIndex < st.yearsToProcess.length)
    (hcsi : 0 ≤ st.currentStartIndex) :
    (5 ≤ calculateProgress st ∧ calculateProgress st ≤ 80)
    ∧ calculateProgress st
        ≤ calculateProgress
            { st with currentStartIndex := st.currentStartIndex + 10 }
    ∧ calculateProgress st
        ≤ calculateProgress
            { st with currentYearIndex := st.currentYearIndex + 1,
                      currentStartIndex := 0 } := by
  have hn : (0 : ℚ) < (st.yearsToProcess.length : ℚ) := by
    have h0 : 0 < st.yearsToProcess.length := Nat.lt_of_le_of_lt (Nat.zero_le _) hi
    exact_mod_cast h0
  have hi1 : (st.currentYearIndex : ℚ) + 1 ≤ (st.yearsToProcess.length : ℚ) := by
    exact_mod_cast hi
  have hi0 : (0 : ℚ) ≤ (st.currentYearIndex : ℚ) := by positivity
  have hc0 : (0 : ℚ) ≤ ((st.currentStartIndex : ℤ) : ℚ) := by exact_mod_cast hcsi
  simp only [calculateProgress]
  obtain ⟨hlow, hhigh⟩ := progressFloor_band (st.currentYearIndex : ℚ)
    ((st.currentStartIndex : ℤ) : ℚ) (st.yearsToProcess.length : ℚ) hi1 hi0 hc0 hn
  refine ⟨⟨by omega, by omega⟩, ?_, ?_⟩
  · have hmono := progressFloor_mono_page (st.currentYearIndex : ℚ)
      ((st.currentStartIndex : ℤ) : ℚ) (st.yearsToProcess.length : ℚ) hn
    have hcast : (((st.currentStartIndex + 10 : ℤ)) : ℚ)
        = ((st.currentStartIndex : ℤ) : ℚ) + 10 := by push_cast; ring
    rw [hcast]
    omega
  · have hmono := progressFloor_mono_year (st.currentYearIndex : ℚ)
      ((st.currentStartIndex : ℤ) : ℚ) (st.yearsToProcess.length : ℚ) hn
    have hcast : (((st.currentYearIndex + 1 : ℕ)) : ℚ)
        = ((st.currentYearIndex : ℕ) : ℚ) + 1 := by push_cast; ring
    rw [hcast]
    have hzc : (((0 : ℤ)) : ℚ) = (0 : ℚ) := by norm_num
    rw [hzc]
    omega

/-- C8 witness: the band and monotonicity facts instantiated at the
concrete mid-export state. -/
theorem calculateProgress_spec_witness :
    (5 ≤ calculateProgress midExportState
        ∧ calculateProgress midExportState ≤ 80)
    ∧ calculateProgress midExportState
        ≤ calculateProgress
            { midExportState with
                currentStartIndex := midExportState.currentStartIndex + 10 }
    ∧ calculateProgress midExportState
        ≤ calculateProgress
            { midExportState with
                currentYearIndex := midExportState.currentYearIndex + 1,
                currentStartIndex := 0 } :=
  calculateProgress_spec midExportState (by decide) (by decide)

theorem badgeQty_pos (badgeTexts : List String) :
    ∀ q, badgeQty badgeTexts = some q → 0 < q := by
  induction badgeTexts with
  | nil => intro q h; cases h
  | cons t ts ih =>
      intro q h
      rw [badgeQty, List.findSome?_cons] at h
      cases hp : jsParseIntLeading t.data with
      | none => rw [hp] at h; exact ih q h
      | some v =>
          rw [hp] at h
          dsimp only at h
          by_cases hv : 0 < v
          · rw [if_pos hv] at h
            dsimp only at h
            cases h
            exact hv
          · rw [if_neg hv] at h
            dsimp only at h
            exact ih q h

/-- C9 counterexample: with no badge resolving and the text fallback
matching "Menge: 0", the produced quantity is 0, not a positive
integer: the fallback applies no `qty > 0` guard (content.ts lines
718-729), unlike the badge path. -/
theorem resolveQuantity_zero_counterexample :
    resolveQuantity [] [0] = 0 ∧ ¬ 0 < resolveQuantity [] [0] := by
  constructor
  · rfl
  · intro h
    rw [show resolveQuantity [] [0] = 0 from rfl] at h
    exact Nat.lt_irrefl 0 h

/-- C9 (amended): the resolved quantity equals the first positive badge
value when one resolves (and is then positive), equals the first text
fallback capture when no badge resolves (with no positivity guard, so a
captured 0 passes through), and defaults to 1 when neither resolves;
it is therefore positive except exactly when the badge walk fails and
the first fallback capture is 0. -/
theorem resolveQuantity_spec (badgeTexts : List String)
    (fallbackCaptures : List Nat) :
    (∀ q, badgeQty badgeTexts = some q →
        resolveQuantity badgeTexts fallbackCaptures = q ∧ 0 < q)
    ∧ (badgeQty badgeTexts = none → fallbackCaptures = [] →
        resolveQuantity badgeTexts fallbackCaptures = 1)
    ∧ (∀ c cs, badgeQty badgeTexts = none → fallbackCaptures = c :: cs →
        resolveQuantity badgeTexts fallbackCaptures = c)
    ∧ (0 < resolveQuantity badgeTexts fallbackCaptures
        ∨ (resolveQuantity badgeTexts fallbackCaptures = 0
            ∧ fallbackCaptures.head? = some 0)) := by
  refine ⟨?_, ?_, ?_, ?_⟩
  · intro q h
    refine ⟨?_, badgeQty_pos badgeTexts q h⟩
    rw [resolveQuantity.eq_def, h]
  · intro hb hf
    rw [resolveQuantity.eq_def, hb, hf]
  · intro c cs hb hf
    rw [resolveQuantity.eq_def, hb, hf]
  · cases hb : badgeQty badgeTexts with
    | some q =>
        left
        rw [resolveQuantity.eq_def, hb]
        exact badgeQty_pos badgeTexts q hb
    | none =>
        cases hf : fallbackCaptures with
        | nil =>
            left
            rw [resolveQuantity.eq_def, hb]
            exact Nat.one_pos
        | cons c cs =>
            by_cases hc : 0 < c
            · left
              rw [resolveQuantity.eq_def, hb]
              exact hc
            · right
              have hc0 : c = 0 := by omega
              constructor
              · rw [resolveQuantity.eq_def, hb]
                dsimp only
                omega
              · simp [hc0]

/-- C9 witness: a badge text "2" resolves to quantity 2, positive. -/
theorem resolveQuantity_spec_witness :
    resolveQuantity ["2"] [] = 2 ∧ 0 < resolveQuantity ["2"] [] :=
  (resolveQuantity_spec ["2"] []).1 2 (by decide)

theorem digitChar_isDigit {k : Nat} (h : k < 10) :
    isDigitCh (digitChar k) = true := by
  interval_cases k <;> decide

theorem digVal_digitChar {k : Nat} (h : k < 10) :
    digVal (digitChar k) = k := by
  interval_cases k <;> decide

theorem toLower_digitChar {k : Nat} (h : k < 10) :
    Char.toLower (digitChar k) = digitChar k := by
  interval_cases k <;> decide

theorem digitChar_not_ws {k : Nat} (h : k < 10) :
    isWsCh (digitChar k) = false := by
  interval_cases k <;> decide

theorem digitChar_not_german {k : Nat} (h : k < 10) :
    isGermanLetter (digitChar k) = false := by
  interval_cases k <;> decide

theorem digitChar_not_en {k : Nat} (h : k < 10) :
    isEnLetter (digitChar k) = false := by
  interval_cases k <;> decide

theorem digitChar_ne_dot {k : Nat} (h : k < 10) : digitChar k ≠ '.' := by
  interval_cases k <;> decide

theorem digitChar_ne_comma {k : Nat} (h : k < 10) : digitChar k ≠ ',' := by
  interval_cases k <;> decide

theorem enLetter_german {c : Char} (h : isEnLetter c = true) :
    isGermanLetter c = true := by
  simp only [isGermanLetter]
  simp [h]

theorem germanLetter_not_digit {c : Char} (h : isGermanLetter c = true) :
    isDigitCh c = false := by
  simp only [isGermanLetter, isEnLetter, decide_eq_true_eq] at h
  simp only [isDigitCh, decide_eq_false_iff_not]
  omega

theorem germanLetter_not_ws {c : Char} (h : isGermanLetter c = true) :
    isWsCh c = false := by
  simp only [isGermanLetter, isEnLetter, decide_eq_true_eq] at h
  simp only [isWsCh, decide_eq_false_iff_not]
  omega

theorem enLetter_not_digit {c : Char} (h : isEnLetter c = true) :
    isDigitCh c = false :=
  germanLetter_not_digit (enLetter_german h)

theorem enLetter_not_ws {c : Char} (h : isEnLetter c = true) :
    isWsCh c = false :=
  germanLetter_not_ws (enLetter_german h)

theorem ws_space : isWsCh ' ' = true := by decide

theorem takeWhile_all_append {p : Char → Bool} (a : List Char) (c : Char)
    (t : List Char) (ha : ∀ x ∈ a, p x = true) (hc : p c = false) :
    ((a ++ c :: t).takeWhile p) = a := by
  induction a with
  | nil => simp [List.takeWhile_cons, hc]
  | cons x xs ih =>
      have hx : p x = true := ha x (List.mem_cons_self x xs)
      have hxs : ∀ y ∈ xs, p y = true :=
        fun y hy => ha y (List.mem_cons_of_mem x hy)
      simp [List.takeWhile_cons, hx, ih hxs]

theorem dropWhile_all_append {p : Char → Bool} (a : List Char) (c : Char)
    (t : List Char) (ha : ∀ x ∈ a, p x = true) (hc : p c = false) :
    ((a ++ c :: t).dropWhile p) = c :: t := by
  induction a with
  | nil => simp [List.dropWhile_cons, hc]
  | cons x xs ih =>
      have hx : p x = true := ha x (List.mem_cons_self x xs)
      have hxs : ∀ y ∈ xs, p y = true :=
        fun y hy => ha y (List.mem_cons_of_mem x hy)
      simp [List.dropWhile_cons, hx, ih hxs]

theorem natChars_lt {n : Nat} (h : n < 10) : natChars n = [digitChar n] := by
  rw [natChars.eq_def]
  simp [h]

theorem natChars_ge {n : Nat} (h : 10 ≤ n) :
    natChars n = natChars (n / 10) ++ [digitChar (n % 10)] := by
  rw [natChars.eq_def]
  have h2 : ¬ n < 10 := by omega
  simp [h2]

theorem natChars_two {n : Nat} (h1 : 10 ≤ n) (h2 : n ≤ 99) :
    natChars n = [digitChar (n / 10), digitChar (n % 10)] := by
  rw [natChars_ge h1, natChars_lt (show n / 10 < 10 by omega)]
  rfl

theorem natChars_four {n : Nat} (h1 : 1000 ≤ n) (h2 : n ≤ 9999) :
    natChars n = [digitChar (n / 1000), digitChar (n / 100 % 10),
      digitChar (n / 10 % 10), digitChar (n % 10)] := by
  rw [natChars_ge (show 10 ≤ n by omega),
    natChars_ge (show 10 ≤ n / 10 by omega),
    natChars_ge (show 10 ≤ n / 10 / 10 by omega),
    natChars_lt (show n / 10 / 10 / 10 < 10 by omega)]
  have e1 : n / 10 / 10 = n / 100 := by omega
  have e2 : n / 10 / 10 / 10 = n / 1000 := by omega
  rw [e2]
  rw [e1]
  simp

theorem natChars_lower : ∀ n : Nat,
    (natChars n).map Char.toLower = natChars n := by
  intro n
  induction n using Nat.strong_induction_on with
  | _ n ih =>
      by_cases h : n < 10
      · rw [natChars_lt h]
        simp [toLower_digitChar h]
      · rw [natChars_ge (by omega)]
        rw [List.map_append, ih (n / 10) (Nat.div_lt_self (by omega) (by omega))]
        simp [toLower_digitChar (show n % 10 < 10 from Nat.mod_lt n (by omega))]

theorem natChars_facts : ∀ (n : Nat) (c : Char), c ∈ natChars n →
    isDigitCh c = true ∧ isGermanLetter c = false ∧ isEnLetter c = false
      ∧ isWsCh c = false ∧ c ≠ '.' ∧ c ≠ ',' := by
  intro n
  induction n using Nat.strong_induction_on with
  | _ n ih =>
      intro c hc
      by_cases h : n < 10
      · rw [natChars_lt h] at hc
        rw [List.mem_singleton] at hc
        subst hc
        exact ⟨digitChar_isDigit h, digitChar_not_german h,
          digitChar_not_en h, digitChar_not_ws h, digitChar_ne_dot h,
          digitChar_ne_comma h⟩
      · rw [natChars_ge (by omega), List.mem_append] at hc
        rcases hc with hc | hc
        · exact ih (n / 10) (Nat.div_lt_self (by omega) (by omega)) c hc
        · rw [List.mem_singleton] at hc
          subst hc
          have hm : n % 10 < 10 := Nat.mod_lt n (by omega)
          exact ⟨digitChar_isDigit hm, digitChar_not_german hm,
            digitChar_not_en hm, digitChar_not_ws hm, digitChar_ne_dot hm,
            digitChar_ne_comma hm⟩

theorem jsTrim_shape (c1 : Char) (mid : List Char) (c2 : Char)
    (h1 : isWsCh c1 = false) (h2 : isWsCh c2 = false) :
    jsTrim (c1 :: (mid ++ [c2])) = c1 :: (mid ++ [c2]) := by
  unfold jsTrim
  rw [List.dropWhile_cons_of_neg (by simp [h1])]
  have hrev : (c1 :: (mid ++ [c2])).reverse = c2 :: (mid.reverse ++ [c1]) := by
    simp
  rw [hrev, List.dropWhile_cons_of_neg (by simp [h2])]
  rw [show (c2 :: (mid.reverse ++ [c1])).reverse
      = ((mid.reverse ++ [c1]).reverse ++ [c2]) from by simp]
  simp

theorem fourDigits_natChars {y : Nat} (h1 : 1000 ≤ y) (h2 : y ≤ 9999) :
    fourDigits (natChars y) = some y := by
  rw [natChars_four h1 h2]
  have d1 : y / 1000 < 10 := by omega
  have d2 : y / 100 % 10 < 10 := by omega
  have d3 : y / 10 % 10 < 10 := by omega
  have d4 : y % 10 < 10 := by omega
  simp only [fourDigits]
  rw [if_pos ⟨digitChar_isDigit d1, digitChar_isDigit d2,
    digitChar_isDigit d3, digitChar_isDigit d4⟩]
  simp only [digitsVal, List.foldl_cons, List.foldl_nil,
    digVal_digitChar d1, digVal_digitChar d2, digVal_digitChar d3,
    digVal_digitChar d4]
  congr 1
  omega

theorem germanTail_canonical (day y : Nat) (n0 : Char) (ns : List Char)
    (hlet : ∀ c ∈ n0 :: ns, isGermanLetter c = true)
    (hy1 : 1000 ≤ y) (hy2 : y ≤ 9999) :
    germanTail day ('.' :: ' ' :: ((n0 :: ns) ++ ' ' :: natChars y))
      = some (day, n0 :: ns, y) := by
  have hskip : skipDot ('.' :: ' ' :: ((n0 :: ns) ++ ' ' :: natChars y))
      = ' ' :: ((n0 :: ns) ++ ' ' :: natChars y) := by
    simp [skipDot]
  have hn0 : isGermanLetter n0 = true := hlet n0 (List.mem_cons_self n0 ns)
  have hdw1 : (' ' :: ((n0 :: ns) ++ ' ' :: natChars y)).dropWhile isWsCh
      = (n0 :: ns) ++ ' ' :: natChars y := by
    rw [List.dropWhile_cons, if_pos (by decide)]
    rw [List.cons_append, List.dropWhile_cons,
      if_neg (by simp [germanLetter_not_ws hn0])]
  have htw : ((n0 :: ns) ++ ' ' :: natChars y).takeWhile isGermanLetter
      = n0 :: ns :=
    takeWhile_all_append _ _ _ hlet (by decide)
  have hdw2 : ((n0 :: ns) ++ ' ' :: natChars y).dropWhile isGermanLetter
      = ' ' :: natChars y :=
    dropWhile_all_append _ _ _ hlet (by decide)
  have hdw3 : (' ' :: natChars y).dropWhile isWsCh = natChars y := by
    rw [List.dropWhile_cons, if_pos (by decide), natChars_four hy1 hy2]
    rw [List.dropWhile_cons,
      if_neg (by simp [digitChar_not_ws (show y / 1000 < 10 by omega)])]
  simp only [germanTail, hskip, hdw1, htw, hdw2, hdw3,
    fourDigits_natChars hy1 hy2]
  simp

theorem tryGermanAt_canonical (d y : Nat) (n0 : Char) (ns : List Char)
    (hlet : ∀ c ∈ n0 :: ns, isGermanLetter c = true)
    (hd2 : d ≤ 99) (hy1 : 1000 ≤ y) (hy2 : y ≤ 9999) :
    tryGermanAt (natChars d ++ '.' :: ' ' :: ((n0 :: ns) ++ ' ' :: natChars y))
      = some (d, n0 :: ns, y) := by
  have hg := germanTail_canonical d y n0 ns hlet hy1 hy2
  simp only [List.cons_append] at hg
  by_cases hd : d < 10
  · rw [natChars_lt hd]
    simp only [List.cons_append, List.nil_append, tryGermanAt]
    rw [if_pos (digitChar_isDigit hd)]
    rw [if_neg (show ¬ isDigitCh '.' = true by decide)]
    rw [digVal_digitChar hd]
    exact hg
  · rw [natChars_two (by omega) hd2]
    simp only [List.cons_append, List.nil_append, tryGermanAt]
    have hq : d / 10 < 10 := by omega
    have hr : d % 10 < 10 := by omega
    rw [if_pos (digitChar_isDigit hq), if_pos (digitChar_isDigit hr)]
    rw [digVal_digitChar hq, digVal_digitChar hr]
    rw [show 10 * (d / 10) + d % 10 = d by omega]
    rw [hg]

theorem findGerman_head {l : List Char} {r : Nat × List Char × Nat}
    (h : tryGermanAt l = some r) : findGerman l = some r := by
  cases l with
  | nil => cases h
  | cons c rest =>
      rw [findGerman, h]

theorem takeWhile_nil_of_no_sat {p : Char → Bool} (l : List Char)
    (h : ∀ c ∈ l, p c = false) : l.takeWhile p = [] := by
  cases l with
  | nil => rfl
  | cons c t =>
      rw [List.takeWhile_cons, if_neg (by simp [h c (List.mem_cons_self c t)])]

theorem skipDot_subset (l : List Char) : ∀ c ∈ skipDot l, c ∈ l := by
  cases l with
  | nil => intro c hc; cases hc
  | cons a t =>
      intro c hc
      rw [skipDot] at hc
      by_cases ha : a = '.'
      · rw [if_pos ha] at hc; exact List.mem_cons_of_mem a hc
      · rw [if_neg ha] at hc; exact hc

theorem skipComma_subset (l : List Char) : ∀ c ∈ skipComma l, c ∈ l := by
  cases l with
  | nil => intro c hc; cases hc
  | cons a t =>
      intro c hc
      rw [skipComma] at hc
      by_cases ha : a = ','
      · rw [if_pos ha] at hc; exact List.mem_cons_of_mem a hc
      · rw [if_neg ha] at hc; exact hc

theorem dropWhile_subset {p : Char → Bool} (l : List Char) :
    ∀ c ∈ l.dropWhile p, c ∈ l :=
  fun c hc => (List.dropWhile_sublist p).subset hc

theorem germanTail_none_no_letters (day : Nat) (l : List Char)
    (h : ∀ c ∈ l, isGermanLetter c = false) : germanTail day l = none := by
  have htw : ((skipDot l).dropWhile isWsCh).takeWhile isGermanLetter = [] := by
    apply takeWhile_nil_of_no_sat
    intro c hc
    exact h c (skipDot_subset l c (dropWhile_subset (skipDot l) c hc))
  simp only [germanTail, htw]
  simp

theorem tryGermanAt_none_no_letters (l : List Char)
    (h : ∀ c ∈ l, isGermanLetter c = false) : tryGermanAt l = none := by
  cases l with
  | nil => rfl
  | cons c1 rest =>
      simp only [tryGermanAt]
      by_cases h1 : isDigitCh c1 = true
      · rw [if_pos h1]
        have hrest : ∀ c ∈ rest, isGermanLetter c = false :=
          fun c hc => h c (List.mem_cons_of_mem c1 hc)
        cases rest with
        | nil => exact germanTail_none_no_letters _ [] (by intro c hc; cases hc)
        | cons c2 rest2 =>
            dsimp only
            have hrest2 : ∀ c ∈ rest2, isGermanLetter c = false :=
              fun c hc => hrest c (List.mem_cons_of_mem c2 hc)
            by_cases h2 : isDigitCh c2 = true
            · rw [if_pos h2]
              rw [germanTail_none_no_letters _ rest2 hrest2]
              exact germanTail_none_no_letters _ _ hrest
            · rw [if_neg h2]
              exact germanTail_none_no_letters _ _ hrest
      · rw [if_neg h1]

theorem findGerman_none_no_letters (l : List Char)
    (h : ∀ c ∈ l, isGermanLetter c = false) : findGerman l = none := by
  induction l with
  | nil => rfl
  | cons c rest ih =>
      rw [findGerman, tryGermanAt_none_no_letters _ h]
      exact ih (fun x hx => h x (List.mem_cons_of_mem c hx))

theorem findGerman_skip_letters (a t : List Char)
    (ha : ∀ c ∈ a, isEnLetter c = true) :
    findGerman (a ++ t) = findGerman t := by
  induction a with
  | nil => rfl
  | cons x xs ih =>
      have hx : isEnLetter x = true := ha x (List.mem_cons_self x xs)
      have hxs : ∀ c ∈ xs, isEnLetter c = true :=
        fun c hc => ha c (List.mem_cons_of_mem x hc)
      rw [List.cons_append, findGerman]
      rw [show tryGermanAt (x :: (xs ++ t)) = none from by
        simp only [tryGermanAt]
        rw [if_neg (by simp [enLetter_not_digit hx])]]
      exact ih hxs

theorem natChars_cons : ∀ n : Nat, ∃ c t, natChars n = c :: t
    ∧ isWsCh c = false ∧ isDigitCh c = true := by
  intro n
  induction n using Nat.strong_induction_on with
  | _ n ih =>
      by_cases h : n < 10
      · exact ⟨digitChar n, [], natChars_lt h, digitChar_not_ws h,
          digitChar_isDigit h⟩
      · obtain ⟨c, t, hct, hws, hdg⟩ :=
          ih (n / 10) (Nat.div_lt_self (by omega) (by omega))
        refine ⟨c, t ++ [digitChar (n % 10)], ?_, hws, hdg⟩
        rw [natChars_ge (by omega), hct]
        simp

theorem dropWhile_ws_natChars_append (n : Nat) (rest : List Char) :
    (natChars n ++ rest).dropWhile isWsCh = natChars n ++ rest := by
  obtain ⟨c, t, hct, hws, hdg⟩ := natChars_cons n
  rw [hct, List.cons_append, List.dropWhile_cons, if_neg (by simp [hws])]

theorem dropWhile_ws_space_year {y : Nat} (hy1 : 1000 ≤ y) (hy2 : y ≤ 9999) :
    (' ' :: natChars y).dropWhile isWsCh = natChars y := by
  rw [List.dropWhile_cons, if_pos (by decide)]
  obtain ⟨c, t, hct, hws, hdg⟩ := natChars_cons y
  rw [hct, List.dropWhile_cons, if_neg (by simp [hws])]

theorem englishTail_canonical (name : List Char) (day y : Nat)
    (hy1 : 1000 ≤ y) (hy2 : y ≤ 9999) :
    englishTail name day (',' :: ' ' :: natChars y) = some (name, day, y) := by
  have hskip : skipComma (',' :: ' ' :: natChars y) = ' ' :: natChars y := by
    simp [skipComma]
  simp only [englishTail, hskip, dropWhile_ws_space_year hy1 hy2,
    fourDigits_natChars hy1 hy2]

theorem tryEnglishAt_canonical (d y : Nat) (n0 : Char) (ns : List Char)
    (hlet : ∀ c ∈ n0 :: ns, isEnLetter c = true)
    (hd2 : d ≤ 99) (hy1 : 1000 ≤ y) (hy2 : y ≤ 9999) :
    tryEnglishAt ((n0 :: ns) ++ ' ' :: (natChars d ++ ',' :: ' ' :: natChars y))
      = some (n0 :: ns, d, y) := by
  have htw : ((n0 :: ns) ++ ' ' :: (natChars d ++ ',' :: ' ' :: natChars y)).takeWhile
      isEnLetter = n0 :: ns :=
    takeWhile_all_append _ _ _ hlet (by decide)
  have hdw : ((n0 :: ns) ++ ' ' :: (natChars d ++ ',' :: ' ' :: natChars y)).dropWhile
      isEnLetter = ' ' :: (natChars d ++ ',' :: ' ' :: natChars y) :=
    dropWhile_all_append _ _ _ hlet (by decide)
  have hwsne : ((' ' :: (natChars d ++ ',' :: ' ' :: natChars y)).takeWhile
      isWsCh).isEmpty = false := by
    rw [List.takeWhile_cons, if_pos (by decide)]
    rfl
  have hdwws : (' ' :: (natChars d ++ ',' :: ' ' :: natChars y)).dropWhile
      isWsCh = natChars d ++ ',' :: ' ' :: natChars y := by
    rw [List.dropWhile_cons, if_pos (by decide)]
    exact dropWhile_ws_natChars_append d _
  have het := englishTail_canonical (n0 :: ns) d y hy1 hy2
  simp only [tryEnglishAt, htw, hdw, hwsne, hdwws]
  by_cases hd : d < 10
  · rw [natChars_lt hd]
    simp only [List.cons_append, List.nil_append]
    rw [if_neg (by simp)]
    rw [if_pos (digitChar_isDigit hd)]
    rw [if_neg (show ¬ isDigitCh ',' = true by decide)]
    rw [digVal_digitChar hd]
    exact het
  · rw [natChars_two (by omega) hd2]
    simp only [List.cons_append, List.nil_append]
    rw [if_neg (by simp)]
    have hq : d / 10 < 10 := by omega
    have hr : d % 10 < 10 := by omega
    rw [if_pos (digitChar_isDigit hq), if_pos (digitChar_isDigit hr)]
    rw [digVal_digitChar hq, digVal_digitChar hr]
    rw [show 10 * (d / 10) + d % 10 = d by omega]
    rw [het]
    simp

theorem findEnglish_head {l : List Char} {r : List Char × Nat × Nat}
    (h : tryEnglishAt l = some r) : findEnglish l = some r := by
  cases l with
  | nil => cases h
  | cons c rest => rw [findEnglish, h]

theorem toLower_dot : Char.toLower '.' = '.' := by decide

theorem toLower_space : Char.toLower ' ' = ' ' := by decide

theorem toLower_comma : Char.toLower ',' = ',' := by decide

theorem cleanOf_german (d y : Nat) (capName lowName : List Char)
    (hy1 : 1000 ≤ y) (hy2 : y ≤ 9999)
    (hmap : capName.map Char.toLower = lowName) :
    cleanOf (String.mk (natChars d ++ '.' :: ' ' :: (capName ++ ' ' :: natChars y)))
      = natChars d ++ '.' :: ' ' :: (lowName ++ ' ' :: natChars y) := by
  show (jsTrim (natChars d ++ '.' :: ' ' :: (capName ++ ' ' :: natChars y))).map
      Char.toLower = _
  obtain ⟨dc, dt, hdchars, hdws, hddg⟩ := natChars_cons d
  have hL : natChars d ++ '.' :: ' ' :: (capName ++ ' ' :: natChars y)
      = dc :: ((dt ++ '.' :: ' ' :: (capName ++ ' ' :: natChars (y / 10)))
          ++ [digitChar (y % 10)]) := by
    rw [hdchars, natChars_ge (show 10 ≤ y by omega)]
    simp
  rw [hL, jsTrim_shape _ _ _ hdws
    (digitChar_not_ws (show y % 10 < 10 by omega)), ← hL]
  simp only [List.map_append, List.map_cons, natChars_lower, hmap,
    toLower_dot, toLower_space]

theorem cleanOf_english (d y : Nat) (capName lowName : List Char)
    (hy1 : 1000 ≤ y) (hy2 : y ≤ 9999)
    (hmap : capName.map Char.toLower = lowName)
    (hcapne : capName ≠ [])
    (hcapws : ∀ c ∈ capName, isWsCh c = false) :
    cleanOf (String.mk (capName ++ ' ' :: (natChars d ++ ',' :: ' ' :: natChars y)))
      = lowName ++ ' ' :: (natChars d ++ ',' :: ' ' :: natChars y) := by
  show (jsTrim (capName ++ ' ' :: (natChars d ++ ',' :: ' ' :: natChars y))).map
      Char.toLower = _
  obtain ⟨c0, cs, rfl⟩ := List.exists_cons_of_ne_nil hcapne
  have hc0 : isWsCh c0 = false := hcapws c0 (List.mem_cons_self c0 cs)
  have hL : (c0 :: cs) ++ ' ' :: (natChars d ++ ',' :: ' ' :: natChars y)
      = c0 :: ((cs ++ ' ' :: (natChars d ++ ',' :: ' ' :: natChars (y / 10)))
          ++ [digitChar (y % 10)]) := by
    rw [natChars_ge (show 10 ≤ y by omega)]
    simp
  rw [hL, jsTrim_shape _ _ _ hc0
    (digitChar_not_ws (show y % 10 < 10 by omega)), ← hL]
  have hmapcons := hmap
  simp only [List.cons_append, List.map_cons, List.map_append,
    natChars_lower, toLower_comma, toLower_space] at *
  rw [← hmapcons]
  simp

theorem parseDate_german_generic (y d m : Nat) (capName lowName : List Char)
    (hy1 : 2000 ≤ y) (hy2 : y ≤ 2100) (hd2 : d ≤ 99)
    (hmap : capName.map Char.toLower = lowName)
    (hne : lowName ≠ [])
    (hlet : ∀ c ∈ lowName, isGermanLetter c = true)
    (hmn : monthNum lowName = some m) :
    parseDate (String.mk (natChars d ++ '.' :: ' ' :: (capName ++ ' ' :: natChars y)))
      = some (isoDate y m d) := by
  obtain ⟨n0, ns, rfl⟩ := List.exists_cons_of_ne_nil hne
  have hclean := cleanOf_german d y capName (n0 :: ns)
    (by omega) (by omega) hmap
  have hfind : findGerman (natChars d ++ '.' :: ' ' ::
      ((n0 :: ns) ++ ' ' :: natChars y)) = some (d, n0 :: ns, y) :=
    findGerman_head (tryGermanAt_canonical d y n0 ns hlet hd2
      (by omega) (by omega))
  simp only [parseDate, hclean, hfind]
  rw [if_pos ⟨hy1, hy2⟩, hmn]

theorem parseDate_english_generic (y d m : Nat) (capName lowName : List Char)
    (hy1 : 2000 ≤ y) (hy2 : y ≤ 2100) (hd2 : d ≤ 99)
    (hmap : capName.map Char.toLower = lowName)
    (hne : lowName ≠ [])
    (hlet : ∀ c ∈ lowName, isEnLetter c = true)
    (hcapne : capName ≠ [])
    (hcapws : ∀ c ∈ capName, isWsCh c = false)
    (hmn : monthNum lowName = some m) :
    parseDate (String.mk (capName ++ ' ' :: (natChars d ++ ',' :: ' ' :: natChars y)))
      = some (isoDate y m d) := by
  obtain ⟨n0, ns, rfl⟩ := List.exists_cons_of_ne_nil hne
  have hclean := cleanOf_english d y capName (n0 :: ns)
    (by omega) (by omega) hmap hcapne hcapws
  have hnogerman : findGerman ((n0 :: ns) ++ ' ' ::
      (natChars d ++ ',' :: ' ' :: natChars y)) = none := by
    rw [findGerman_skip_letters _ _ hlet]
    apply findGerman_none_no_letters
    intro c hc
    rw [List.mem_cons] at hc
    rcases hc with rfl | hc
    · decide
    · rw [List.mem_append] at hc
      rcases hc with hc | hc
      · exact (natChars_facts d c hc).2.1
      · rw [List.mem_cons] at hc
        rcases hc with rfl | hc
        · decide
        · rw [List.mem_cons] at hc
          rcases hc with rfl | hc
          · decide
          · exact (natChars_facts y c hc).2.1
  have hfinde : findEnglish ((n0 :: ns) ++ ' ' ::
      (natChars d ++ ',' :: ' ' :: natChars y)) = some (n0 :: ns, d, y) :=
    findEnglish_head (tryEnglishAt_canonical d y n0 ns hlet hd2
      (by omega) (by omega))
  simp only [parseDate, hclean, hnogerman, hfinde]
  rw [if_pos ⟨hy1, hy2⟩, hmn]

theorem parseDate_none_generic (s : String)
    (hg : ∀ d0 n0 y0, findGerman (cleanOf s) = some (d0, n0, y0) →
      ¬(2000 ≤ y0 ∧ y0 ≤ 2100))
    (he : ∀ n0 d0 y0, findEnglish (cleanOf s) = some (n0, d0, y0) →
      ¬(2000 ≤ y0 ∧ y0 ≤ 2100)) :
    parseDate s = none := by
  simp only [parseDate]
  have hEnglish : (match findEnglish (cleanOf s) with
      | some (name, d, y) =>
          if 2000 ≤ y ∧ y ≤ 2100 then
            match monthNum name with
            | some m => some (isoDate y m d)
            | none => none
          else none
      | none => (none : Option String)) = none := by
    cases hE : findEnglish (cleanOf s) with
    | none => rfl
    | some r =>
        obtain ⟨n0, d0, y0⟩ := r
        dsimp only
        rw [if_neg (he n0 d0 y0 hE)]
  cases hG : findGerman (cleanOf s) with
  | none => exact hEnglish
  | some r =>
      obtain ⟨d0, n0, y0⟩ := r
      dsimp only
      rw [if_neg (hg d0 n0 y0 hG)]
      exact hEnglish

theorem daysInMonth_le (y m : Nat) : daysInMonth y m ≤ 31 := by
  rw [daysInMonth]
  split_ifs <;> omega

/-- C3: round-trip totality of the shared date parser.  For every year
in [2000, 2100], month in [1, 12] and calendar-valid day, parsing the
canonical German rendering (`15. Januar 2024` style) and the canonical
English rendering (`January 15, 2024` style) returns the canonical ISO
string; and every input each of whose pattern matches (if any) carries
a year outside the plausible [2000, 2100] range — which subsumes inputs
matching no pattern at all — parses to the `none` signal.  The parser
is a total function, so it never throws. -/
theorem parseDate_spec (y m d : Nat) (s : String)
    (hy : 2000 ≤ y ∧ y ≤ 2100) (hm : 1 ≤ m ∧ m ≤ 12)
    (hd : 1 ≤ d ∧ d ≤ daysInMonth y m)
    (hg : ∀ d0 n0 y0, findGerman (cleanOf s) = some (d0, n0, y0) →
      ¬(2000 ≤ y0 ∧ y0 ≤ 2100))
    (he : ∀ n0 d0 y0, findEnglish (cleanOf s) = some (n0, d0, y0) →
      ¬(2000 ≤ y0 ∧ y0 ≤ 2100)) :
    parseDate (formatGerman y m d) = some (isoDate y m d)
      ∧ parseDate (formatEnglish y m d) = some (isoDate y m d)
      ∧ parseDate s = none := by
  obtain ⟨hm1, hm2⟩ := hm
  have hd99 : d ≤ 99 := by
    have := daysInMonth_le y m
    omega
  refine ⟨?_, ?_, parseDate_none_generic s hg he⟩
  · interval_cases m
    · exact parseDate_german_generic y d 1 "Januar".data "januar".data hy.1 hy.2 hd99
        (by decide) (by decide) (by decide) (by decide)
    · exact parseDate_german_generic y d 2 "Februar".data "februar".data hy.1 hy.2 hd99
        (by decide) (by decide) (by decide) (by decide)
    · exact parseDate_german_generic y d 3 "März".data "märz".data hy.1 hy.2 hd99
        (by decide) (by decide) (by decide) (by decide)
    · exact parseDate_german_generic y d 4 "April".data "april".data hy.1 hy.2 hd99
        (by decide) (by decide) (by decide) (by decide)
    · exact parseDate_german_generic y d 5 "Mai".data "mai".data hy.1 hy.2 hd99
        (by decide) (by decide) (by decide) (by decide)
    · exact parseDate_german_generic y d 6 "Juni".data "juni".data hy.1 hy.2 hd99
        (by decide) (by decide) (by decide) (by decide)
    · exact parseDate_german_generic y d 7 "Juli".data "juli".data hy.1 hy.2 hd99
        (by decide) (by decide) (by decide) (by decide)
    · exact parseDate_german_generic y d 8 "August".data "august".data hy.1 hy.2 hd99
        (by decide) (by decide) (by decide) (by decide)
    · exact parseDate_german_generic y d 9 "September".data "september".data hy.1 hy.2 hd99
        (by decide) (by decide) (by decide) (by decide)
    · exact parseDate_german_generic y d 10 "Oktober".data "oktober".data hy.1 hy.2 hd99
        (by decide) (by decide) (by decide) (by decide)
    · exact parseDate_german_generic y d 11 "November".data "november".data hy.1 hy.2 hd99
        (by decide) (by decide) (by decide) (by decide)
    · exact parseDate_german_generic y d 12 "Dezember".data "dezember".data hy.1 hy.2 hd99
        (by decide) (by decide) (by decide) (by decide)
  · interval_cases m
    · exact parseDate_english_generic y d 1 "January".data "january".data hy.1 hy.2 hd99
        (by decide) (by decide) (by decide) (by decide) (by decide) (by decide)
    · exact parseDate_english_generic y d 2 "February".data "february".data hy.1 hy.2 hd99
        (by decide) (by decide) (by decide) (by decide) (by decide) (by decide)
    · exact parseDate_english_generic y d 3 "March".data "march".data hy.1 hy.2 hd99
        (by decide) (by decide) (by decide) (by decide) (by decide) (by decide)
    · exact parseDate_english_generic y d 4 "April".data "april".data hy.1 hy.2 hd99
        (by decide) (by decide) (by decide) (by decide) (by decide) (by decide)
    · exact parseDate_english_generic y d 5 "May".data "may".data hy.1 hy.2 hd99
        (by decide) (by decide) (by decide) (by decide) (by decide) (by decide)
    · exact parseDate_english_generic y d 6 "June".data "june".data hy.1 hy.2 hd99
        (by decide) (by decide) (by decide) (by decide) (by decide) (by decide)
    · exact parseDate_english_generic y d 7 "July".data "july".data hy.1 hy.2 hd99
        (by decide) (by decide) (by decide) (by decide) (by decide) (by decide)
    · exact parseDate_english_generic y d 8 "August".data "august".data hy.1 hy.2 hd99
        (by decide) (by decide) (by decide) (by decide) (by decide) (by decide)
    · exact parseDate_english_generic y d 9 "September".data "september".data hy.1 hy.2 hd99
        (by decide) (by decide) (by decide) (by decide) (by decide) (by decide)
    · exact parseDate_english_generic y d 10 "October".data "october".data hy.1 hy.2 hd99
        (by decide) (by decide) (by decide) (by decide) (by decide) (by decide)
    · exact parseDate_english_generic y d 11 "November".data "november".data hy.1 hy.2 hd99
        (by decide) (by decide) (by decide) (by decide) (by decide) (by decide)
    · exact parseDate_english_generic y d 12 "December".data "december".data hy.1 hy.2 hd99
        (by decide) (by decide) (by decide) (by decide) (by decide) (by decide)

/-- C3 witness: (2024, 1, 15) round-trips through both renderings, and
a dateless string parses to `none`. -/
theorem parseDate_spec_witness :
    parseDate (formatGerman 2024 1 15) = some (isoDate 2024 1 15)
      ∧ parseDate (formatEnglish 2024 1 15) = some (isoDate 2024 1 15)
      ∧ parseDate "no date here" = none := by
  have hG : findGerman (cleanOf "no date here") = none := by decide
  have hE : findEnglish (cleanOf "no date here") = none := by decide
  exact parseDate_spec 2024 1 15 "no date here" (by decide) (by decide)
    (by decide)
    (fun d0 n0 y0 h => by rw [hG] at h; cases h)
    (fun n0 d0 y0 h => by rw [hE] at h; cases h)

/-- C10: the parser checks the year range and the month name but never
the day: the calendar-invalid `31. Februar 2024` yields `2024-02-31`
and the zero day `0. Januar 2024` yields `2024-01-00` instead of the
unparseable signal. -/
theorem parseDate_no_day_validation :
    parseDate "31. Februar 2024" = some "2024-02-31"
      ∧ parseDate "0. Januar 2024" = some "2024-01-00" := by
  constructor
  · have h := parseDate_german_generic 2024 31 2 "Februar".data
      "februar".data (by norm_num) (by norm_num) (by norm_num)
      (by decide) (by decide) (by decide) (by decide)
    have hstr : String.mk (natChars 31 ++ '.' :: ' ' ::
        ("Februar".data ++ ' ' :: natChars 2024)) = "31. Februar 2024" := by
      rw [natChars_two (by norm_num) (by norm_num),
        natChars_four (by norm_num) (by norm_num)]
      decide
    have hiso : isoDate 2024 2 31 = "2024-02-31" := by
      rw [isoDate, natChars_four (by norm_num) (by norm_num)]
      rw [show pad2 2 = ['0', digitChar 2] from by rw [pad2]; norm_num]
      rw [show pad2 31 = natChars 31 from by rw [pad2]; norm_num]
      rw [natChars_two (by norm_num) (by norm_num)]
      decide
    rw [hstr, hiso] at h
    exact h
  · have h := parseDate_german_generic 2024 0 1 "Januar".data
      "januar".data (by norm_num) (by norm_num) (by norm_num)
      (by decide) (by decide) (by decide) (by decide)
    have hstr : String.mk (natChars 0 ++ '.' :: ' ' ::
        ("Januar".data ++ ' ' :: natChars 2024)) = "0. Januar 2024" := by
      rw [natChars_lt (by norm_num), natChars_four (by norm_num) (by norm_num)]
      decide
    have hiso : isoDate 2024 1 0 = "2024-01-00" := by
      rw [isoDate, natChars_four (by norm_num) (by norm_num)]
      rw [show pad2 1 = ['0', digitChar 1] from by rw [pad2]; norm_num]
      rw [show pad2 0 = ['0', digitChar 0] from by rw [pad2]; norm_num]
      decide
    rw [hstr, hiso] at h
    exact h

end AmazonExporter

